import Mathlib

/-!
Shallow embedding of `models.py` from the spinning-up-basic repository.

The repository is a thin utility layer over a tensor/autodiff framework:
parameter/gradient flattening (`params_to_vec` / `vec_to_params`),
target-network creation and Polyak updates, and MPI gradient averaging
(`sync_grads`).  We model a parameter tensor as a flat list of rationals
together with its shape metadata, a module as the ordered list of its
parameters (the canonical `parameters()` enumeration), and numeric values
with `ℚ` (exact arithmetic in place of the framework's floats).  Fallible
operations (`vec_to_params`, which raises on a too-short slice) return
`Option`.
-/

namespace Models

/-- A single trainable parameter: shape metadata plus the two numeric
buffers (value `data` and gradient `grad`, each stored flat in row-major
order, as tensors are), and the gradient-tracking flag. -/
structure Param where
  shape : List Nat
  data : List ℚ
  grad : List ℚ
  requires_grad : Bool
deriving DecidableEq

instance : Inhabited Param := ⟨⟨[], [], [], true⟩⟩

/-- `param.data.numel()` in the source: the number of elements of the
value buffer. -/
def Param.numel (p : Param) : Nat := p.data.length

/-- A module, reduced to its ordered parameter list (`network.parameters()`). -/
abbrev Network := List Param

/-- The `mode` argument of `params_to_vec` / `vec_to_params`:
`'params'` selects the value buffer, anything else selects the gradient. -/
inductive Mode where
  | params
  | grads
deriving DecidableEq

/-- `getattr(param, attr)` for `attr = 'data' if mode == 'params' else 'grad'`. -/
def readBuffer (mode : Mode) (p : Param) : List ℚ :=
  match mode with
  | Mode.params => p.data
  | Mode.grads => p.grad

/-- In-place `getattr(param, attr).copy_(...)`, modelled functionally:
the chosen buffer is replaced, every other field is kept. -/
def writeBuffer (mode : Mode) (p : Param) (xs : List ℚ) : Param :=
  match mode with
  | Mode.params => { p with data := xs }
  | Mode.grads => { p with grad := xs }

/-- `params_to_vec(network, mode)`:
`np.concatenate([getattr(param, attr).detach().view(-1).numpy() for param in network.parameters()])`.
Buffers are already stored flat, so `view(-1)` is the identity and the
concatenation of the chosen buffers in enumeration order is the result. -/
def params_to_vec (network : Network) (mode : Mode) : List ℚ :=
  (network.map (fun p => readBuffer mode p)).flatten

/-- Sum of `param.data.numel()` over the enumeration: the length a vector
must have for `vec_to_params` to fill every parameter exactly. -/
def totalNumel (network : Network) : Nat :=
  (network.map Param.numel).sum

/-- `vec_to_params(vec, network, mode)`: walks the parameters, and for each
one copies the slice `vec[ptr : ptr + param.data.numel()]` into the chosen
buffer.  The numpy slice silently truncates at the end of `vec`, and
`torch.from_numpy(slice).view_as(param.data)` then raises when the slice
holds fewer than `numel` elements; we model that failure as `none`.
Elements of `vec` beyond the last parameter are silently ignored, as in the
source. -/
def vec_to_params : List ℚ → Network → Mode → Option Network
  | _, [], _ => some []
  | vec, p :: ps, mode =>
    let slice := vec.take p.numel
    if slice.length = p.numel then
      match vec_to_params (vec.drop p.numel) ps mode with
      | some rest => some (writeBuffer mode p slice :: rest)
      | none => none
    else
      none

/-- The total companion of `vec_to_params`: the same walk without the
length check.  When the vector is long enough the two agree
(`vec_to_params_eq_writeAll`). -/
def writeAll (mode : Mode) : List ℚ → Network → Network
  | _, [] => []
  | vec, p :: ps => writeBuffer mode p (vec.take p.numel) :: writeAll mode (vec.drop p.numel) ps

/-- `create_target_network(network)`: `copy.deepcopy(network)` followed by
`param.requires_grad = False` on every copied parameter.  In the functional
model a deep copy is the value itself, so only the flag changes. -/
def create_target_network (network : Network) : Network :=
  network.map (fun p => { p with requires_grad := false })

/-- `update_target_network(network, target_network, polyak_factor)`:
`for param, target_param in zip(...): target_param.data = polyak_factor * target_param.data + (1 - polyak_factor) * param.data`.
`zip` stops at the shorter list, leaving any extra target parameters
untouched. -/
def update_target_network : Network → Network → ℚ → Network
  | _, [], _ => []
  | [], tps, _ => tps
  | p :: ps, tp :: tps, polyak_factor =>
      { tp with
        data := List.zipWith (fun s t => polyak_factor * t + (1 - polyak_factor) * s) p.data tp.data } ::
        update_target_network ps tps polyak_factor

/-- Element-wise sum of two flat vectors (one reduction step of
`MPI.SUM`). -/
def vecAdd (xs ys : List ℚ) : List ℚ :=
  List.zipWith (fun a b => a + b) xs ys

/-- `comm.Allreduce(send, recv, op=MPI.SUM)`: every process receives the
element-wise sum of all processes' send buffers. -/
def allreduceSum : List (List ℚ) → List ℚ
  | [] => []
  | v :: vs => vs.foldl vecAdd v

/-- `sync_grads(comm, network)`, modelled over the whole process group:
`nets` lists each process's private network replica, `comm.Get_size()` is
`nets.length`, and each process flattens its gradients, takes part in the
sum all-reduce, divides by the process count and writes the result back
into its gradient buffers.  The per-process outcome is the written replica
(or `none` where `vec_to_params` raises). -/
def sync_grads (nets : List Network) : List (Option Network) :=
  nets.map (fun network =>
    let grad_vec_recv := allreduceSum (nets.map (fun n => params_to_vec n Mode.grads))
    vec_to_params (grad_vec_recv.map (fun x => x / (nets.length : ℚ))) network Mode.grads)

/-- A training state holding a live network and its target network; used to
express that mutating the live network after `create_target_network` cannot
reach the target's buffers (deep-copy isolation). -/
structure TrainState where
  network : Network
  target : Network

/-- Pair a network with a freshly created target network. -/
def initTarget (network : Network) : TrainState :=
  { network := network, target := create_target_network network }

/-- An arbitrary subsequent in-place mutation of the live network's
parameters (e.g. an optimizer step, or `vec_to_params` writing new values). -/
def mutateNetwork (f : Network → Network) (s : TrainState) : TrainState :=
  { s with network := f s.network }

/-- A parameter of the given shape with zero-initialised buffers, used to
build the repository's architectures as parameter skeletons. -/
def mkParam (shape : List Nat) : Param :=
  { shape := shape, data := List.replicate shape.prod 0, grad := List.replicate shape.prod 0, requires_grad := true }

/-- `nn.Linear(inF, outF)`: weight of shape `[outF, inF]` then bias `[outF]`. -/
def linearParams (inF outF : Nat) : Network :=
  [mkParam [outF, inF], mkParam [outF]]

/-- `nn.LayerNorm(n)`: weight `[n]` then bias `[n]`. -/
def layerNormParams (n : Nat) : Network :=
  [mkParam [n], mkParam [n]]

/-- Parameter enumeration of `Actor(hidden_size, stochastic, layer_norm)`:
three linear layers (with layer normalisation inserted after the first and
second when enabled), then `policy_log_std` of shape `[1, 1]` when
stochastic. -/
def ActorParams (hidden_size : Nat) (stochastic layer_norm : Bool) : Network :=
  linearParams 3 hidden_size ++
    (if layer_norm then layerNormParams hidden_size else []) ++
    linearParams hidden_size hidden_size ++
    (if layer_norm then layerNormParams hidden_size else []) ++
    linearParams hidden_size 1 ++
    (if stochastic then [mkParam [1, 1]] else [])

/-- Parameter enumeration of `SoftActor(hidden_size)`. -/
def SoftActorParams (hidden_size : Nat) : Network :=
  linearParams 3 hidden_size ++ linearParams hidden_size hidden_size ++
    linearParams hidden_size 2

/-- Parameter enumeration of `Critic(hidden_size, state_action, layer_norm)`. -/
def CriticParams (hidden_size : Nat) (state_action layer_norm : Bool) : Network :=
  linearParams (3 + (if state_action then 1 else 0)) hidden_size ++
    (if layer_norm then layerNormParams hidden_size else []) ++
    linearParams hidden_size hidden_size ++
    (if layer_norm then layerNormParams hidden_size else []) ++
    linearParams hidden_size 1

/-- Parameter enumeration of `ActorCritic(hidden_size)`: the actor's
parameters (stochastic, no layer norm) then the critic's. -/
def ActorCriticParams (hidden_size : Nat) : Network :=
  ActorParams hidden_size true false ++ CriticParams hidden_size false false

/-- Parameter enumeration of `DQN(hidden_size, num_actions)`. -/
def DQNParams (hidden_size num_actions : Nat) : Network :=
  linearParams 3 hidden_size ++ linearParams hidden_size hidden_size ++
    linearParams hidden_size num_actions

/-! ### Helper lemmas -/

theorem readBuffer_writeBuffer (mode : Mode) (p : Param) (xs : List ℚ) :
    readBuffer mode (writeBuffer mode p xs) = xs := by
  cases mode <;> rfl

theorem params_to_vec_nil (mode : Mode) : params_to_vec [] mode = [] := rfl

theorem params_to_vec_cons (p : Param) (ps : Network) (mode : Mode) :
    params_to_vec (p :: ps) mode = readBuffer mode p ++ params_to_vec ps mode := by
  simp [params_to_vec]

theorem totalNumel_nil : totalNumel [] = 0 := rfl

theorem totalNumel_cons (p : Param) (ps : Network) :
    totalNumel (p :: ps) = p.numel + totalNumel ps := by
  simp [totalNumel]

theorem vec_to_params_eq_writeAll (mode : Mode) (net : Network) :
    ∀ vec : List ℚ, totalNumel net ≤ vec.length →
      vec_to_params vec net mode = some (writeAll mode vec net) := by
  induction net with
  | nil => intro vec _; rfl
  | cons p ps ih =>
    intro vec h
    rw [totalNumel_cons] at h
    have hp : p.numel ≤ vec.length := le_trans (Nat.le_add_right _ _) h
    have hslice : (vec.take p.numel).length = p.numel := by
      simp [List.length_take, Nat.min_eq_left hp]
    have hrest : totalNumel ps ≤ (vec.drop p.numel).length := by
      simp only [List.length_drop]
      omega
    simp only [vec_to_params, writeAll, if_pos hslice, ih (vec.drop p.numel) hrest]

theorem params_to_vec_writeAll (mode : Mode) (net : Network) :
    ∀ vec : List ℚ, vec.length = totalNumel net →
      params_to_vec (writeAll mode vec net) mode = vec := by
  induction net with
  | nil =>
    intro vec h
    rw [totalNumel_nil] at h
    simp [writeAll, params_to_vec_nil, List.eq_nil_of_length_eq_zero h]
  | cons p ps ih =>
    intro vec h
    rw [totalNumel_cons] at h
    have hrest : (vec.drop p.numel).length = totalNumel ps := by
      simp only [List.length_drop]
      omega
    rw [writeAll, params_to_vec_cons, readBuffer_writeBuffer, ih (vec.drop p.numel) hrest]
    exact List.take_append_drop _ _

theorem writeAll_grads_params (net : Network) :
    ∀ vec : List ℚ,
      params_to_vec (writeAll Mode.grads vec net) Mode.params = params_to_vec net Mode.params := by
  induction net with
  | nil => intro vec; rfl
  | cons p ps ih =>
    intro vec
    rw [writeAll, params_to_vec_cons, params_to_vec_cons, ih]
    rfl

theorem length_params_to_vec_grads (net : Network)
    (h : ∀ p ∈ net, p.grad.length = p.data.length) :
    (params_to_vec net Mode.grads).length = totalNumel net := by
  induction net with
  | nil => rfl
  | cons p ps ih =>
    rw [params_to_vec_cons, totalNumel_cons]
    have hp : p.grad.length = p.data.length := h p (by simp)
    have hps := ih (fun q hq => h q (by simp [hq]))
    simp [readBuffer, hp, hps, Param.numel]

theorem getD_zipWith (f : ℚ → ℚ → ℚ) :
    ∀ (xs ys : List ℚ) (j : Nat), j < xs.length → j < ys.length →
      (List.zipWith f xs ys).getD j 0 = f (xs.getD j 0) (ys.getD j 0) := by
  intro xs
  induction xs with
  | nil => intro ys j h _; simp at h
  | cons x xs ih =>
    intro ys j h1 h2
    cases ys with
    | nil => simp at h2
    | cons y ys =>
      cases j with
      | zero => simp
      | succ k => simpa using ih ys k (by simpa using h1) (by simpa using h2)

theorem getD_map_of_lt {α β : Type} (f : α → β) (l : List α) (d : α) (e : β) :
    ∀ i : Nat, i < l.length → (l.map f).getD i e = f (l.getD i d) := by
  induction l with
  | nil => intro i hi; simp at hi
  | cons a l ih =>
    intro i hi
    cases i with
    | zero => simp
    | succ k => simpa using ih k (by simpa using hi)

theorem foldl_vecAdd_getD (L : Nat) (vs : List (List ℚ)) :
    ∀ acc : List ℚ, acc.length = L → (∀ v ∈ vs, v.length = L) →
      (vs.foldl vecAdd acc).length = L ∧
      ∀ j, j < L → (vs.foldl vecAdd acc).getD j 0 =
        acc.getD j 0 + (vs.map (fun v => v.getD j 0)).sum := by
  induction vs with
  | nil => intro acc ha _; exact ⟨ha, by simp⟩
  | cons w ws ih =>
    intro acc ha hv
    have hw : w.length = L := hv w (by simp)
    have hacc : (vecAdd acc w).length = L := by
      simp [vecAdd, ha, hw]
    obtain ⟨h1, h2⟩ := ih (vecAdd acc w) hacc (fun v hv' => hv v (by simp [hv']))
    refine ⟨h1, ?_⟩
    intro j hj
    rw [List.foldl_cons, h2 j hj]
    have hadd : (vecAdd acc w).getD j 0 = acc.getD j 0 + w.getD j 0 := by
      have := getD_zipWith (fun a b => a + b) acc w j (by omega) (by omega)
      simpa [vecAdd] using this
    rw [hadd]
    simp [add_assoc]

theorem allreduceSum_spec (sends : List (List ℚ)) (L : Nat)
    (hne : sends ≠ []) (h : ∀ v ∈ sends, v.length = L) :
    (allreduceSum sends).length = L ∧
    ∀ j, j < L → (allreduceSum sends).getD j 0 =
      (sends.map (fun v => v.getD j 0)).sum := by
  cases sends with
  | nil => exact absurd rfl hne
  | cons v vs =>
    obtain ⟨h1, h2⟩ :=
      foldl_vecAdd_getD L vs v (h v (by simp)) (fun w hw => h w (by simp [hw]))
    refine ⟨h1, ?_⟩
    intro j hj
    rw [allreduceSum, h2 j hj]
    simp

theorem getD_map_div (xs : List ℚ) (c : ℚ) :
    ∀ j : Nat, j < xs.length → (xs.map (fun x => x / c)).getD j 0 = xs.getD j 0 / c := by
  induction xs with
  | nil => intro j hj; simp at hj
  | cons x xs ih =>
    intro j hj
    cases j with
    | zero => simp
    | succ k => simpa using ih k (by simpa using hj)

/-! ### Claim theorems -/

/-- Claim C2: for every module `m` and structurally identical module `m'`
(same data-buffer length for each parameter in matching order),
`vec_to_params (params_to_vec m 'params') m' 'params'` succeeds and makes
`m'` hold exactly `m`'s parameter values: flatten followed by unflatten is
the identity round-trip on parameter values. -/
theorem roundtrip_params (m m' : Network)
    (h : List.Forall₂ (fun p q => p.data.length = q.data.length) m m') :
    ∃ m'', vec_to_params (params_to_vec m Mode.params) m' Mode.params = some m'' ∧
      List.Forall₂ (fun p q => q.data = p.data) m m'' := by
  induction h with
  | nil => exact ⟨[], rfl, List.Forall₂.nil⟩
  | @cons a b as bs hab htl ih =>
    obtain ⟨m'', hm, hf⟩ := ih
    have hnumel : b.numel = a.data.length := hab.symm
    have htake : (params_to_vec (a :: as) Mode.params).take b.numel = a.data := by
      rw [params_to_vec_cons, hnumel]
      show (a.data ++ params_to_vec as Mode.params).take a.data.length = a.data
      exact List.take_left _ _
    have hdrop : (params_to_vec (a :: as) Mode.params).drop b.numel =
        params_to_vec as Mode.params := by
      rw [params_to_vec_cons, hnumel]
      show (a.data ++ params_to_vec as Mode.params).drop a.data.length = _
      exact List.drop_left _ _
    refine ⟨writeBuffer Mode.params b a.data :: m'', ?_, ?_⟩
    · simp only [vec_to_params, htake, hdrop, hm, if_pos hnumel.symm]
    · exact List.Forall₂.cons rfl hf

/-- Claim C2 witness: a concrete one-parameter round trip. -/
theorem roundtrip_params_witness :
    List.Forall₂ (fun p q => p.data.length = q.data.length)
      [({ shape := [2], data := [1, 2], grad := [0, 0], requires_grad := true } : Param)]
      [({ shape := [2], data := [5, 6], grad := [0, 0], requires_grad := false } : Param)] ∧
    ∃ m'', vec_to_params
        (params_to_vec [({ shape := [2], data := [1, 2], grad := [0, 0], requires_grad := true } : Param)] Mode.params)
        [({ shape := [2], data := [5, 6], grad := [0, 0], requires_grad := false } : Param)] Mode.params = some m'' ∧
      List.Forall₂ (fun p q => q.data = p.data)
        [({ shape := [2], data := [1, 2], grad := [0, 0], requires_grad := true } : Param)] m'' :=
  ⟨List.Forall₂.cons rfl List.Forall₂.nil,
    roundtrip_params _ _ (List.Forall₂.cons rfl List.Forall₂.nil)⟩

/-- Claim C3: the length of `params_to_vec m 'params'` equals the sum over
`m`'s parameters of their element counts (`numel`, the product of the shape). -/
theorem params_to_vec_length (m : Network)
    (h : ∀ p ∈ m, p.data.length = p.shape.prod) :
    (params_to_vec m Mode.params).length = (m.map (fun p => p.shape.prod)).sum := by
  induction m with
  | nil => rfl
  | cons p ps ih =>
    rw [params_to_vec_cons]
    have hp : p.data.length = p.shape.prod := h p (by simp)
    have hps := ih (fun q hq => h q (by simp [hq]))
    simp [readBuffer, hp, hps]

/-- Claim C3 witness: the `ActorCritic(2)` parameter skeleton. -/
theorem params_to_vec_length_witness :
    (∀ p ∈ ActorCriticParams 2, p.data.length = p.shape.prod) ∧
    (params_to_vec (ActorCriticParams 2) Mode.params).length =
      ((ActorCriticParams 2).map (fun p => p.shape.prod)).sum :=
  ⟨by decide, params_to_vec_length _ (by decide)⟩

/-- The flattening contract as the spec words it: visit the parameters in
canonical enumeration order and concatenate the chosen buffer of each. -/
def flatten_spec (network : Network) (mode : Mode) : List ℚ :=
  match network with
  | [] => []
  | p :: ps => readBuffer mode p ++ flatten_spec ps mode

/-- Claim C4: `params_to_vec` returns exactly the concatenation, in the
module's canonical parameter enumeration order, of each parameter's chosen
buffer (value for `'params'`, gradient otherwise), i.e. it refines the
spec's flattening contract. -/
theorem params_to_vec_is_ordered_concat (network : Network) (mode : Mode) :
    params_to_vec network mode = flatten_spec network mode := by
  induction network with
  | nil => rfl
  | cons p ps ih => rw [params_to_vec_cons, flatten_spec, ih]

/-- Claim C5: `create_target_network` returns a module whose parameters all
have gradient tracking disabled and whose values, shapes and gradients
equal the source's at call time; and since the copy shares no storage, any
subsequent mutation `f` of the live network leaves the target's parameters
exactly as they were at creation. -/
theorem create_target_network_spec (network : Network) (f : Network → Network) :
    (∀ p ∈ (mutateNetwork f (initTarget network)).target, p.requires_grad = false) ∧
    List.Forall₂ (fun p q => q.data = p.data ∧ q.shape = p.shape ∧ q.grad = p.grad)
      network (mutateNetwork f (initTarget network)).target := by
  constructor
  · intro p hp
    simp only [mutateNetwork, initTarget, create_target_network, List.mem_map] at hp
    obtain ⟨q, _, rfl⟩ := hp
    rfl
  · show List.Forall₂ _ network (create_target_network network)
    induction network with
    | nil => exact List.Forall₂.nil
    | cons p ps ih => exact List.Forall₂.cons ⟨rfl, rfl, rfl⟩ ih

/-- Claim C6: `update_target_network` sets, for every parameter pair in
matching enumeration order, every element of the target's value buffer to
`τ * (old target value) + (1 - τ) * (source value)`. -/
theorem update_target_network_polyak (net tgt : Network) (τ : ℚ)
    (h : List.Forall₂ (fun s t => s.data.length = t.data.length) net tgt) :
    ∀ i j : Nat, i < tgt.length → j < ((tgt.getD i default).data.length) →
      ((update_target_network net tgt τ).getD i default).data.getD j 0 =
        τ * ((tgt.getD i default).data.getD j 0) +
          (1 - τ) * ((net.getD i default).data.getD j 0) := by
  induction h with
  | nil => intro i j hi _; simp at hi
  | @cons s t ss ts hst htl ih =>
    intro i j hi hj
    cases i with
    | zero =>
      simp only [List.getD_cons_zero] at hj ⊢
      rw [update_target_network]
      simp only [List.getD_cons_zero]
      exact getD_zipWith (fun a b => τ * b + (1 - τ) * a) s.data t.data j (by omega) hj
    | succ k =>
      rw [update_target_network]
      simp only [List.getD_cons_succ] at hj ⊢
      exact ih k j (by simpa using hi) hj

/-- Claim C6 witness: one parameter, one element, `τ = 1/3`. -/
theorem update_target_network_polyak_witness :
    List.Forall₂ (fun s t => s.data.length = t.data.length)
      [({ shape := [1], data := [2], grad := [0], requires_grad := true } : Param)]
      [({ shape := [1], data := [4], grad := [0], requires_grad := false } : Param)] ∧
    ((update_target_network
        [({ shape := [1], data := [2], grad := [0], requires_grad := true } : Param)]
        [({ shape := [1], data := [4], grad := [0], requires_grad := false } : Param)]
        (1 / 3)).getD 0 default).data.getD 0 0 =
      (1 / 3) * (([({ shape := [1], data := [4], grad := [0], requires_grad := false } : Param)].getD 0 default).data.getD 0 0) +
        (1 - 1 / 3) * (([({ shape := [1], data := [2], grad := [0], requires_grad := true } : Param)].getD 0 default).data.getD 0 0) :=
  ⟨List.Forall₂.cons rfl List.Forall₂.nil,
    update_target_network_polyak
      [({ shape := [1], data := [2], grad := [0], requires_grad := true } : Param)]
      [({ shape := [1], data := [4], grad := [0], requires_grad := false } : Param)] (1 / 3)
      (List.Forall₂.cons rfl List.Forall₂.nil) 0 0 (by decide) (by decide)⟩

theorem zipWith_polyak_one : ∀ xs ys : List ℚ, xs.length = ys.length →
    List.zipWith (fun s t => (1 : ℚ) * t + (1 - 1) * s) xs ys = ys
  | [], [], _ => rfl
  | [], _ :: _, h => by simp at h
  | _ :: _, [], h => by simp at h
  | x :: xs, y :: ys, h => by
    rw [List.zipWith_cons_cons, zipWith_polyak_one xs ys (by simpa using h)]
    norm_num

theorem zipWith_polyak_zero : ∀ xs ys : List ℚ, xs.length = ys.length →
    List.zipWith (fun s t => (0 : ℚ) * t + (1 - 0) * s) xs ys = xs
  | [], [], _ => rfl
  | [], _ :: _, h => by simp at h
  | _ :: _, [], h => by simp at h
  | x :: xs, y :: ys, h => by
    rw [List.zipWith_cons_cons, zipWith_polyak_zero xs ys (by simpa using h)]
    norm_num

/-- Claim C7: with polyak factor `τ = 1`, `update_target_network` leaves
the target network entirely unchanged. -/
theorem update_target_network_one (net tgt : Network)
    (h : List.Forall₂ (fun s t => s.data.length = t.data.length) net tgt) :
    update_target_network net tgt 1 = tgt := by
  induction h with
  | nil => rfl
  | @cons s t ss ts hst htl ih =>
    rw [update_target_network, ih, zipWith_polyak_one s.data t.data hst]

/-- Claim C7 witness. -/
theorem update_target_network_one_witness :
    List.Forall₂ (fun s t => s.data.length = t.data.length)
      [({ shape := [1], data := [2], grad := [0], requires_grad := true } : Param)]
      [({ shape := [1], data := [4], grad := [0], requires_grad := false } : Param)] ∧
    update_target_network
        [({ shape := [1], data := [2], grad := [0], requires_grad := true } : Param)]
        [({ shape := [1], data := [4], grad := [0], requires_grad := false } : Param)] 1 =
      [({ shape := [1], data := [4], grad := [0], requires_grad := false } : Param)] :=
  ⟨List.Forall₂.cons rfl List.Forall₂.nil,
    update_target_network_one _ _ (List.Forall₂.cons rfl List.Forall₂.nil)⟩

/-- Claim C8: with polyak factor `τ = 0`, `update_target_network` makes
every target parameter value exactly equal to the corresponding source
parameter value (a hard copy). -/
theorem update_target_network_zero (net tgt : Network)
    (h : List.Forall₂ (fun s t => s.data.length = t.data.length) net tgt) :
    List.Forall₂ (fun s r => r.data = s.data) net (update_target_network net tgt 0) := by
  induction h with
  | nil => exact List.Forall₂.nil
  | @cons s t ss ts hst htl ih =>
    rw [update_target_network]
    exact List.Forall₂.cons (zipWith_polyak_zero s.data t.data hst) ih

/-- Claim C8 witness. -/
theorem update_target_network_zero_witness :
    List.Forall₂ (fun s t => s.data.length = t.data.length)
      [({ shape := [1], data := [2], grad := [0], requires_grad := true } : Param)]
      [({ shape := [1], data := [4], grad := [0], requires_grad := false } : Param)] ∧
    List.Forall₂ (fun s r => r.data = s.data)
      [({ shape := [1], data := [2], grad := [0], requires_grad := true } : Param)]
      (update_target_network
        [({ shape := [1], data := [2], grad := [0], requires_grad := true } : Param)]
        [({ shape := [1], data := [4], grad := [0], requires_grad := false } : Param)] 0) :=
  ⟨List.Forall₂.cons rfl List.Forall₂.nil,
    update_target_network_zero _ _ (List.Forall₂.cons rfl List.Forall₂.nil)⟩

/-- Claim C9 counterexample: a vector strictly longer than the sum of the
module's parameter element counts does not make `vec_to_params` fail: the
numpy slice truncates silently, every parameter still receives a full
slice, and the extra elements are ignored, so the call succeeds. -/
theorem vec_to_params_long_no_error :
    ([(1 : ℚ), 2].length ≠ totalNumel [mkParam [1]]) ∧
    vec_to_params [(1 : ℚ), 2] [mkParam [1]] Mode.params =
      some [{ shape := [1], data := [1], grad := [0], requires_grad := true }] := by
  constructor
  · decide
  · decide

/-- Claim C9 amended: for every vector strictly shorter than the sum of the
module's parameter element counts, `vec_to_params` fails (the truncated
slice cannot fill the parameter's buffer). -/
theorem vec_to_params_short_error (vec : List ℚ) (net : Network) (mode : Mode)
    (h : vec.length < totalNumel net) :
    vec_to_params vec net mode = none := by
  induction net generalizing vec with
  | nil => rw [totalNumel_nil] at h; omega
  | cons p ps ih =>
    rw [totalNumel_cons] at h
    by_cases hp : p.numel ≤ vec.length
    · have hslice : (vec.take p.numel).length = p.numel := by
        simp [List.length_take, Nat.min_eq_left hp]
      have hrest : (vec.drop p.numel).length < totalNumel ps := by
        simp only [List.length_drop]
        omega
      simp only [vec_to_params, if_pos hslice, ih (vec.drop p.numel) hrest]
    · have hslice : ¬((vec.take p.numel).length = p.numel) := by
        simp only [List.length_take]
        omega
      simp only [vec_to_params, if_neg hslice]

/-- Claim C9 amended witness: the empty vector against a one-element
parameter. -/
theorem vec_to_params_short_error_witness :
    ([] : List ℚ).length < totalNumel [mkParam [1]] ∧
    vec_to_params ([] : List ℚ) [mkParam [1]] Mode.params = none :=
  ⟨by decide, vec_to_params_short_error [] [mkParam [1]] Mode.params (by decide)⟩

theorem getD_mem_of_lt {α : Type} (l : List α) (d : α) :
    ∀ i : Nat, i < l.length → l.getD i d ∈ l := by
  induction l with
  | nil => intro i hi; simp at hi
  | cons a l ih =>
    intro i hi
    cases i with
    | zero => simp
    | succ k =>
      simp only [List.getD_cons_succ]
      exact List.mem_cons_of_mem a (ih k (by simpa using hi))

/-- Claim C1: with `P` worker processes each holding its own local gradient
vector (all of the same length `L`, i.e. the same architecture), after
`sync_grads` every process's gradient buffers hold the identical
element-wise mean of the `P` pre-call gradient vectors: the element-wise
sum over all processes divided by `P`. -/
theorem sync_grads_mean (nets : List Network) (L : Nat)
    (hlen : ∀ net ∈ nets, (params_to_vec net Mode.grads).length = L)
    (hwf : ∀ net ∈ nets, ∀ p ∈ net, p.grad.length = p.data.length)
    (i : Nat) (hi : i < nets.length) :
    ∃ net', (sync_grads nets).getD i none = some net' ∧
      (params_to_vec net' Mode.grads).length = L ∧
      ∀ j, j < L → (params_to_vec net' Mode.grads).getD j 0 =
        (nets.map (fun n => (params_to_vec n Mode.grads).getD j 0)).sum /
          (nets.length : ℚ) := by
  have hmem : nets.getD i [] ∈ nets := getD_mem_of_lt nets [] i hi
  have hsendlen : ∀ v ∈ nets.map (fun n => params_to_vec n Mode.grads), v.length = L := by
    intro v hv
    obtain ⟨n, hn, rfl⟩ := List.mem_map.mp hv
    exact hlen n hn
  have hne : nets.map (fun n => params_to_vec n Mode.grads) ≠ [] := by
    intro hcon
    rw [List.map_eq_nil_iff] at hcon
    rw [hcon] at hi
    simp at hi
  obtain ⟨hrl, hrg⟩ :=
    allreduceSum_spec (nets.map (fun n => params_to_vec n Mode.grads)) L hne hsendlen
  have hmeanlen : ((allreduceSum (nets.map (fun n => params_to_vec n Mode.grads))).map
      (fun x => x / (nets.length : ℚ))).length = L := by
    simpa using hrl
  have htot : totalNumel (nets.getD i []) = L := by
    rw [← length_params_to_vec_grads _ (hwf _ hmem)]
    exact hlen _ hmem
  have hvp : vec_to_params
      ((allreduceSum (nets.map (fun n => params_to_vec n Mode.grads))).map
        (fun x => x / (nets.length : ℚ))) (nets.getD i []) Mode.grads =
      some (writeAll Mode.grads
        ((allreduceSum (nets.map (fun n => params_to_vec n Mode.grads))).map
          (fun x => x / (nets.length : ℚ))) (nets.getD i [])) :=
    vec_to_params_eq_writeAll _ _ _ (by omega)
  refine ⟨writeAll Mode.grads
      ((allreduceSum (nets.map (fun n => params_to_vec n Mode.grads))).map
        (fun x => x / (nets.length : ℚ))) (nets.getD i []), ?_, ?_, ?_⟩
  · rw [sync_grads, getD_map_of_lt _ nets ([] : Network) none i hi]
    exact hvp
  · rw [params_to_vec_writeAll Mode.grads (nets.getD i []) _ (by omega)]
    exact hmeanlen
  · intro j hj
    rw [params_to_vec_writeAll Mode.grads (nets.getD i []) _ (by omega)]
    rw [getD_map_div _ _ j (by omega)]
    rw [hrg j hj, List.map_map]
    rfl

/-- Three worker processes, identical one-parameter architecture, local
gradients `[1]`, `[2]` and `[3]`. -/
def syncNets : List Network :=
  [[{ mkParam [1] with grad := [1] }],
   [{ mkParam [1] with grad := [2] }],
   [{ mkParam [1] with grad := [3] }]]

/-- Claim C1 witness: `P = 3`, gradients `[1]`, `[2]`, `[3]`; process 0
receives their element-wise mean. -/
theorem sync_grads_mean_witness :
    (∀ net ∈ syncNets, (params_to_vec net Mode.grads).length = 1) ∧
    (∀ net ∈ syncNets, ∀ p ∈ net, p.grad.length = p.data.length) ∧
    (0 < syncNets.length) ∧
    ∃ net', (sync_grads syncNets).getD 0 none = some net' ∧
      (params_to_vec net' Mode.grads).length = 1 ∧
      ∀ j, j < 1 → (params_to_vec net' Mode.grads).getD j 0 =
        (syncNets.map (fun n => (params_to_vec n Mode.grads).getD j 0)).sum /
          (syncNets.length : ℚ) :=
  ⟨by decide, by decide, by decide,
    sync_grads_mean syncNets 1 (by decide) (by decide) 0 (by decide)⟩

/-- Claim C10: `sync_grads` mutates only the gradient buffers: each
process's parameter values, as read by `params_to_vec _ 'params'`, are
exactly what they were before the call. -/
theorem sync_grads_preserves_params (nets : List Network) (L : Nat)
    (hlen : ∀ net ∈ nets, (params_to_vec net Mode.grads).length = L)
    (hwf : ∀ net ∈ nets, ∀ p ∈ net, p.grad.length = p.data.length)
    (i : Nat) (hi : i < nets.length) :
    ∃ net', (sync_grads nets).getD i none = some net' ∧
      params_to_vec net' Mode.params = params_to_vec (nets.getD i []) Mode.params := by
  have hmem : nets.getD i [] ∈ nets := getD_mem_of_lt nets [] i hi
  have hsendlen : ∀ v ∈ nets.map (fun n => params_to_vec n Mode.grads), v.length = L := by
    intro v hv
    obtain ⟨n, hn, rfl⟩ := List.mem_map.mp hv
    exact hlen n hn
  have hne : nets.map (fun n => params_to_vec n Mode.grads) ≠ [] := by
    intro hcon
    rw [List.map_eq_nil_iff] at hcon
    rw [hcon] at hi
    simp at hi
  obtain ⟨hrl, _⟩ :=
    allreduceSum_spec (nets.map (fun n => params_to_vec n Mode.grads)) L hne hsendlen
  have hmeanlen : ((allreduceSum (nets.map (fun n => params_to_vec n Mode.grads))).map
      (fun x => x / (nets.length : ℚ))).length = L := by
    simpa using hrl
  have htot : totalNumel (nets.getD i []) = L := by
    rw [← length_params_to_vec_grads _ (hwf _ hmem)]
    exact hlen _ hmem
  refine ⟨writeAll Mode.grads
      ((allreduceSum (nets.map (fun n => params_to_vec n Mode.grads))).map
        (fun x => x / (nets.length : ℚ))) (nets.getD i []), ?_, ?_⟩
  · rw [sync_grads, getD_map_of_lt _ nets ([] : Network) none i hi]
    exact vec_to_params_eq_writeAll _ _ _ (by omega)
  · exact writeAll_grads_params (nets.getD i []) _

/-- Claim C10 witness: process 1 of the three-process group keeps its
parameter values across `sync_grads`. -/
theorem sync_grads_preserves_params_witness :
    (∀ net ∈ syncNets, (params_to_vec net Mode.grads).length = 1) ∧
    (∀ net ∈ syncNets, ∀ p ∈ net, p.grad.length = p.data.length) ∧
    (1 < syncNets.length) ∧
    ∃ net', (sync_grads syncNets).getD 1 none = some net' ∧
      params_to_vec net' Mode.params = params_to_vec (syncNets.getD 1 []) Mode.params :=
  ⟨by decide, by decide, by decide,
    sync_grads_preserves_params syncNets 1 (by decide) (by decide) 1 (by decide)⟩

end Models
